import Mathlib

/-!
Verification of the Analyzer subsystem of `cli-testing-specialist`.

The Rust sources are shallowly embedded: pure parsing functions become Lean
functions on `String` / `List Char`; every subprocess probe is abstracted as
an oracle `List String → Except CliTestError String` (the arguments passed to
`execute_with_timeout`, and the captured output or typed failure it returns);
the execution gate's poll loop is modelled in units of whole poll intervals.
The specific regular expressions of the source are implemented as dedicated
scanners that reproduce the leftmost-first, greedy-with-backtracking
semantics of the `regex` crate on those concrete patterns.
-/

namespace CliTesting

/-- Character class of the regex `\s` (also Rust `char::is_whitespace` on the
ASCII range): space, tab, newline, vertical tab, form feed, carriage return. -/
def rsSpace (c : Char) : Bool :=
  c == ' ' || c == '\t' || c == '\n' || c == '\x0b' || c == '\x0c' || c == '\r'

/-- ASCII `[a-z]`. -/
def isAsciiLower (c : Char) : Bool := 'a' ≤ c && c ≤ 'z'

/-- ASCII `[A-Z]`. -/
def isAsciiUpper (c : Char) : Bool := 'A' ≤ c && c ≤ 'Z'

/-- ASCII `[a-zA-Z]` (the regex class used for short flags). -/
def isAsciiAlphaChar (c : Char) : Bool := isAsciiLower c || isAsciiUpper c

/-- ASCII `[0-9]`. -/
def isAsciiDigit (c : Char) : Bool := '0' ≤ c && c ≤ '9'

/-- Word character for the regex `\b` boundary: `[0-9A-Za-z_]`. -/
def isWordChar (c : Char) : Bool :=
  isAsciiDigit c || isAsciiAlphaChar c || c == '_'

/-- Rust `str::trim_start`. -/
def trimStart (s : List Char) : List Char := s.dropWhile rsSpace

/-- Rust `str::trim_end`. -/
def trimEnd (s : List Char) : List Char := (trimStart s.reverse).reverse

/-- Rust `str::trim`. -/
def rsTrim (s : List Char) : List Char := trimEnd (trimStart s)

/-- Split on `'\n'`, keeping empty pieces (auxiliary for `rustLines`). -/
def splitNl : List Char → List Char → List (List Char)
  | [], acc => [acc.reverse]
  | c :: rest, acc =>
    if c == '\n' then acc.reverse :: splitNl rest [] else splitNl rest (c :: acc)

/-- Drop a final empty piece (Rust `lines()` yields no line after a trailing
newline, and none at all for the empty string). -/
def dropFinalEmpty (l : List (List Char)) : List (List Char) :=
  match l.getLast? with
  | some [] => l.dropLast
  | _ => l

/-- Strip one trailing `'\r'` (Rust `lines()` treats `\r\n` as one break). -/
def stripCR (line : List Char) : List Char :=
  match line.getLast? with
  | some '\r' => line.dropLast
  | _ => line

/-- Rust `str::lines`. -/
def rustLines (s : List Char) : List (List Char) :=
  (dropFinalEmpty (splitNl s [])).map stripCR

/-- Rust `str::split_whitespace` (auxiliary, accumulates the current token
in reverse). -/
def splitWSAux : List Char → List Char → List (List Char)
  | [], acc => if acc.isEmpty then [] else [acc.reverse]
  | c :: rest, acc =>
    if rsSpace c then
      if acc.isEmpty then splitWSAux rest [] else acc.reverse :: splitWSAux rest []
    else
      splitWSAux rest (c :: acc)

/-- Rust `str::split_whitespace`. -/
def splitWS (s : List Char) : List (List Char) := splitWSAux s []

/-- Rust `str::contains(&str)` on character lists. -/
def isInfixList (needle : List Char) : List Char → Bool
  | [] => needle.isEmpty
  | c :: rest => needle.isPrefixOf (c :: rest) || isInfixList needle rest

/-- Rust `str::contains(&str)`. -/
def strContains (hay pat : String) : Bool := isInfixList pat.data hay.data

/-- Rust `str::to_lowercase` (ASCII-faithful). -/
def lowerStr (s : String) : String := String.mk (s.data.map Char.toLower)

/-- Rust `str::trim_start_matches('-')`. -/
def stripDashes (s : String) : String := String.mk (s.data.dropWhile (· == '-'))

/-! ## Data model (`src/error.rs`, `src/types/analysis.rs`,
`src/types/no_args_behavior.rs`) -/

/-- The error variants of `CliTestError` reachable from the Analyzer
(`src/error.rs`); the reporting/template variants are out of scope. -/
inductive CliTestError where
  | binaryNotFound (path : String)
  | binaryNotExecutable (path : String)
  | executionFailed (msg : String)
  | invalidHelpOutput
  | ioError (msg : String)
deriving DecidableEq, Repr

/-- `OptionType` from `src/types/analysis.rs`; `i64` bounds are embedded
as `Int`. -/
inductive OptionType where
  | flag
  | string
  | numeric (min : Option Int) (max : Option Int)
  | path
  | enum (values : List String)
deriving DecidableEq, Repr

/-- `CliOption` from `src/types/analysis.rs`. -/
structure CliOption where
  short : Option String
  long : Option String
  description : Option String
  option_type : OptionType
  required : Bool
  default_value : Option String
deriving DecidableEq, Repr

/-- `Subcommand` from `src/types/analysis.rs`, including the
`required_args` field populated by `SubcommandDetector::detect_recursive`;
`depth : u8` is embedded as `Nat` (the recursion never leaves `0..=max_depth`,
far below the `u8` range). -/
inductive Subcommand where
  | mk (name : String) (description : Option String) (options : List CliOption)
       (required_args : List String) (subcommands : List Subcommand) (depth : Nat)

/-- `AnalysisMetadata` from `src/types/analysis.rs`. -/
structure AnalysisMetadata where
  analyzed_at : String
  analyzer_version : String
  total_subcommands : Nat
  total_options : Nat
  analysis_duration_ms : Nat

/-- `CliAnalysis` from `src/types/analysis.rs`; the `PathBuf` is embedded as
its display string. -/
structure CliAnalysis where
  binary_path : String
  binary_name : String
  version : Option String
  help_output : String
  subcommands : List Subcommand
  global_options : List CliOption
  metadata : AnalysisMetadata

/-- `NoArgsBehavior` from `src/types/no_args_behavior.rs`. -/
inductive NoArgsBehavior where
  | showHelp
  | requireSubcommand
  | interactive
deriving DecidableEq, Repr

/-- `count_subcommands` from `src/types/analysis.rs`:
`len + Σ count(children)`, written as a fold over the nested tree. -/
def count_subcommands : List Subcommand → Nat
  | [] => 0
  | .mk _ _ _ _ subs _ :: rest => 1 + count_subcommands subs + count_subcommands rest

/-- `count_options` from `src/types/analysis.rs`. -/
def count_options : List Subcommand → Nat
  | [] => 0
  | .mk _ _ opts _ subs _ :: rest =>
    opts.length + count_options subs + count_options rest

/-! ## Help-text option scanning (`src/analyzer/cli_parser.rs`)

The lazy-static regexes of `cli_parser.rs` are implemented as scanners with
the `regex` crate's leftmost-first semantics on those concrete patterns. -/

/-- The separator test of `SHORT_OPTION = -([a-zA-Z])(?:\s|,|$)`: the
character after the letter must be whitespace, a comma, or line end. -/
def shortSepOk : List Char → Bool
  | [] => true
  | c :: _ => rsSpace c || c == ','

/-- Leftmost match of `SHORT_OPTION = -([a-zA-Z])(?:\s|,|$)`; returns the
captured letter. -/
def findShortOpt : List Char → Option Char
  | '-' :: c :: rest =>
    if isAsciiAlphaChar c && shortSepOk rest then some c
    else findShortOpt (c :: rest)
  | _ :: rest => findShortOpt rest
  | [] => none

/-- Tail class of `LONG_OPTION`'s capture: `[a-z0-9-]`. -/
def isLongTail (c : Char) : Bool := isAsciiLower c || isAsciiDigit c || c == '-'

/-- Leftmost match of `LONG_OPTION = --([a-z][a-z0-9-]+)`; the greedy `+`
captures the maximal run. Returns the captured token (without the dashes). -/
def findLongOpt : List Char → Option (List Char)
  | '-' :: '-' :: c :: rest =>
    if isAsciiLower c then
      let tl := rest.takeWhile isLongTail
      if tl.isEmpty then findLongOpt ('-' :: c :: rest)
      else some (c :: tl)
    else findLongOpt ('-' :: c :: rest)
  | _ :: rest => findLongOpt rest
  | [] => none

/-- Try `--[a-z][a-z0-9-]+` exactly at the head of the list; on success
return the remainder after the captured token. -/
def matchLongTokenHere : List Char → Option (List Char)
  | '-' :: '-' :: c :: rest =>
    if isAsciiLower c then
      let tl := rest.takeWhile isLongTail
      if tl.isEmpty then none else some (rest.drop tl.length)
    else none
  | _ => none

/-- Try `\s+<[^>]+>` exactly at the head of the list; on success return the
remainder after the `>`. All quantifiers are forced maximal because the
classes involved are pairwise disjoint with their delimiters. -/
def matchValueGroup (s : List Char) : Option (List Char) :=
  let w := s.takeWhile rsSpace
  if w.isEmpty then none
  else
    match s.drop w.length with
    | '<' :: r =>
      let content := r.takeWhile (fun c => !(c == '>'))
      if content.isEmpty then none
      else
        match r.drop content.length with
        | '>' :: after => some after
        | _ => none
    | _ => none

/-- Match `\s+(.+)` against the whole remainder of a line (no newlines
present), with the regex backtracking semantics: the greedy `\s+` takes all
whitespace and `(.+)` the rest; if the remainder is all whitespace, `\s+`
gives one character back to `(.+)`. Returns the `(.+)` capture. -/
def matchWsPlusRest (s : List Char) : Option (List Char) :=
  let w := s.takeWhile rsSpace
  let r := s.drop w.length
  if w.isEmpty then none
  else if !r.isEmpty then some r
  else if 2 ≤ w.length then some (s.drop (s.length - 1))
  else none

/-- The tail of `OPTION_DESCRIPTION` after the long token:
`(?:\s+<[^>]+>)?\s+(.+)` with the optional group tried first (greedy `?`),
falling back to the group-less branch on failure. -/
def descAfterLong (after : List Char) : Option (List Char) :=
  match matchValueGroup after with
  | some rem =>
    match matchWsPlusRest rem with
    | some d => some d
    | none => matchWsPlusRest after
  | none => matchWsPlusRest after

/-- Leftmost match of
`OPTION_DESCRIPTION = (?:--[a-z][a-z0-9-]+)(?:\s+<[^>]+>)?\s+(.+)`; returns
the `(.+)` capture. On failure at one start position the scan restarts one
character later, exactly as the regex engine does. -/
def findDescription : List Char → Option (List Char)
  | '-' :: '-' :: c :: rest =>
    (match matchLongTokenHere ('-' :: '-' :: c :: rest) with
     | some after =>
       match descAfterLong after with
       | some d => some d
       | none => findDescription ('-' :: c :: rest)
     | none => findDescription ('-' :: c :: rest))
  | _ :: rest => findDescription rest
  | [] => none

/-- `OPTION_WITH_VALUE.is_match`: some position carries
`--([a-z][a-z0-9-]+)\s+<([^>]+)>`. -/
def hasOptionWithValue : List Char → Bool
  | '-' :: '-' :: c :: rest =>
    (match matchLongTokenHere ('-' :: '-' :: c :: rest) with
     | some after =>
       match matchValueGroup after with
       | some _ => true
       | none => hasOptionWithValue ('-' :: c :: rest)
     | none => hasOptionWithValue ('-' :: c :: rest))
  | _ :: rest => hasOptionWithValue rest
  | [] => false

/-- Rust `format!("{:?}", opt)` on an `Option<String>` holding a flag token
(no quote or backslash characters occur in captured flags). -/
def optFmt : Option String → String
  | none => "None"
  | some s => "Some(\"" ++ s ++ "\")"

/-- The deduplication key `format!("{:?}:{:?}", short, long)` of
`CliParser::parse_options`. -/
def optionKeyOf (short long : Option String) : String :=
  optFmt short ++ ":" ++ optFmt long

/-- The per-line loop of `CliParser::parse_options`, with the `seen_options`
hash set embedded as a list of keys. -/
def parseOptionsGo : List (List Char) → List String → List CliOption
  | [], _ => []
  | line :: rest, seen =>
    let trimmed := rsTrim line
    if trimmed.isEmpty || !(trimmed.contains '-') then parseOptionsGo rest seen
    else
      let short := (findShortOpt trimmed).map (fun c => String.mk ['-', c])
      let long := (findLongOpt trimmed).map (fun l => "--" ++ String.mk l)
      if short.isNone && long.isNone then parseOptionsGo rest seen
      else
        let key := optionKeyOf short long
        if key ∈ seen then parseOptionsGo rest seen
        else
          let description := (findDescription trimmed).map (fun d => String.mk (rsTrim d))
          let ot := if hasOptionWithValue trimmed then OptionType.string else OptionType.flag
          { short := short, long := long, description := description,
            option_type := ot, required := false, default_value := none }
            :: parseOptionsGo rest (key :: seen)

/-- `CliParser::parse_options` (`src/analyzer/cli_parser.rs`). -/
def parse_options (helpOutput : String) : List CliOption :=
  parseOptionsGo (rustLines helpOutput.data) []

/-- `USAGE_LINE.is_match` for `parse_required_args`:
`(?i)^\s*usage:\s+` (note the mandatory whitespace after the colon). -/
def usageLineIsMatch (line : List Char) : Bool :=
  let t := line.dropWhile rsSpace
  if ((t.take 6).map Char.toLower) == "usage:".data then
    match t.drop 6 with
    | c :: _ => rsSpace c
    | [] => false
  else false

/-- All `<([^>]+)>` captures of a line, left to right
(`REQUIRED_ARG.captures_iter`). -/
def requiredArgCaptures (s : List Char) : List String :=
  match s with
  | '<' :: rest =>
    let content := rest.takeWhile (fun c => !(c == '>'))
    if content.isEmpty then requiredArgCaptures rest
    else
      match h : rest.drop content.length with
      | '>' :: after => String.mk content :: requiredArgCaptures after
      | _ => requiredArgCaptures rest
  | _ :: rest => requiredArgCaptures rest
  | [] => []
termination_by s.length
decreasing_by
  all_goals simp_wf
  have hl := congrArg List.length h
  simp [List.length_drop] at hl
  omega

/-- `CliParser::parse_required_args`: captures of the first `Usage:` line
only. -/
def parse_required_args (helpOutput : String) : List String :=
  go (rustLines helpOutput.data)
where
  go : List (List Char) → List String
    | [] => []
    | line :: rest =>
      if usageLineIsMatch line then requiredArgCaptures line else go rest

/-! ## Version extraction (`src/analyzer/cli_parser.rs`)

`VERSION_PATTERN = \b\d+\.\d+(?:\.\d+)?(?:-[a-z0-9.]+)?\b`, with the
backtracking the trailing `\b` can force into the optional groups and into
the second digit run. -/

/-- `[a-z0-9.]`, the class of the pre-release group. -/
def isPreRelChar (c : Char) : Bool := isAsciiLower c || isAsciiDigit c || c == '.'

/-- Does a `\b` hold between a last consumed character and the rest of the
input (end of input counts as non-word)? -/
def boundaryAfter (lastC : Char) (rest : List Char) : Bool :=
  let nextWord := match rest with
    | [] => false
    | c :: _ => isWordChar c
  isWordChar lastC != nextWord

/-- Greedy choice of the `(?:-[a-z0-9.]+)?` content length (from `k` down to
1), each candidate checked against the final `\b`; returns the consumed
characters after the `-`. -/
def chooseC4 (r4 : List Char) : Nat → Option (List Char)
  | 0 => none
  | k + 1 =>
    let content := r4.take (k + 1)
    match content.getLast? with
    | some lastC =>
      if boundaryAfter lastC (r4.drop (k + 1)) then some ('-' :: content)
      else chooseC4 r4 k
    | none => none

/-- After the mandatory digit groups: try the greedy `(?:-[a-z0-9.]+)?`
first, else require `\b` directly (the previous character is a digit, hence
a word character). Returns the extra consumed characters. -/
def afterGroup3 (after : List Char) : Option (List Char) :=
  let noGroup : Option (List Char) :=
    match after with
    | [] => some []
    | c :: _ => if isWordChar c then none else some []
  match after with
  | '-' :: r4 =>
    (match chooseC4 r4 (r4.takeWhile isPreRelChar).length with
     | some g => some g
     | none => noGroup)
  | _ => noGroup

/-- Greedy choice of the `(?:\.\d+)?` digit-run length (from `k` down to 1),
falling back to the group-less continuation. Returns the extra consumed
characters after the second digit run. -/
def chooseD3 (r3 : List Char) : Nat → Option (List Char)
  | 0 => none
  | k + 1 =>
    match afterGroup3 (r3.drop (k + 1)) with
    | some t => some ('.' :: r3.take (k + 1) ++ t)
    | none => chooseD3 r3 k

/-- Continuation after the second digit run: greedy optional `(?:\.\d+)?`,
then `afterGroup3`. -/
def afterD2 (after : List Char) : Option (List Char) :=
  match after with
  | '.' :: r3 =>
    (match chooseD3 r3 (r3.takeWhile isAsciiDigit).length with
     | some t => some t
     | none => afterGroup3 after)
  | _ => afterGroup3 after

/-- Greedy choice of the second digit-run length (from `k` down to 1).
Returns the match suffix starting with the chosen digits. -/
def chooseD2 (rest2 : List Char) : Nat → Option (List Char)
  | 0 => none
  | k + 1 =>
    match afterD2 (rest2.drop (k + 1)) with
    | some t => some (rest2.take (k + 1) ++ t)
    | none => chooseD2 rest2 k

/-- Try `VERSION_PATTERN` exactly at this position (the leading `\b` has
already been checked by the caller); returns the matched characters. The
first digit run cannot backtrack: any shorter prefix is followed by a digit,
never by the mandatory `.`. -/
def versionAt (s : List Char) : Option (List Char) :=
  let d1 := s.takeWhile isAsciiDigit
  if d1.isEmpty then none
  else
    match s.drop d1.length with
    | '.' :: rest2 =>
      let d2 := rest2.takeWhile isAsciiDigit
      if d2.isEmpty then none
      else
        match chooseD2 rest2 d2.length with
        | some t => some (d1 ++ '.' :: t)
        | none => none
    | _ => none

/-- Scan for the leftmost `VERSION_PATTERN` match, tracking whether the
previous character is a word character (for the leading `\b`). -/
def findVersionGo : List Char → Bool → Option (List Char)
  | [], _ => none
  | c :: rest, prevWord =>
    (match (if prevWord then none else versionAt (c :: rest)) with
     | some m => some m
     | none => findVersionGo rest (isWordChar c))

/-- `CliParser::extract_version`: first `VERSION_PATTERN` match of the
output. -/
def extract_version (output : String) : Option String :=
  (findVersionGo output.data false).map String.mk

/-! ## Probe oracle and the help/version chains (`src/analyzer/cli_parser.rs`,
`src/utils/validator.rs` as used by the parser)

`execute_with_timeout(binary, args, timeout)` on a fixed validated binary is
abstracted as an oracle from the argument list to the captured output or
typed failure. -/

/-- The probe oracle: what `execute_with_timeout(binary, args, timeout)`
returns for each argument list. -/
def ExecOracle := List String → Except CliTestError String

/-- `CliParser::execute_help`: `--help`, then `-h`, then the `help`
subcommand, each tried only when the previous probe returned an error. -/
def execute_help (exec : ExecOracle) : Except CliTestError String :=
  match exec ["--help"] with
  | .ok output => .ok output
  | .error _ =>
    match exec ["-h"] with
    | .ok output => .ok output
    | .error _ => exec ["help"]

/-- `CliParser::try_get_version`: `--version`, then `-v`, then the `version`
subcommand; the first output containing a version-shaped token wins. -/
def try_get_version (exec : ExecOracle) : Option String :=
  match exec ["--version"] with
  | .ok output =>
    (match extract_version output with
     | some v => some v
     | none => tryV exec)
  | .error _ => tryV exec
where
  tryV (exec : ExecOracle) : Option String :=
    match exec ["-v"] with
    | .ok output =>
      (match extract_version output with
       | some v => some v
       | none => trySub exec)
    | .error _ => trySub exec
  trySub (exec : ExecOracle) : Option String :=
    match exec ["version"] with
    | .ok output => extract_version output
    | .error _ => none

/-! ## Option type inference (`src/analyzer/option_inferrer.rs`)

The Analyzer consumes the already-parsed pattern/constraint tables; the YAML
loading and the process-wide cache are outside the embedding, so the tables
appear as plain values. -/

/-- `OptionPattern` (one priority-ordered keyword rule). -/
structure OptionPattern where
  pattern_type : String
  priority : Nat
  keywords : List String

/-- `PatternSettings`. Keyword lengths are measured in characters; the
source measures bytes, which agrees on the ASCII keywords the tables hold. -/
structure PatternSettings where
  case_sensitive : Bool
  partialMatch : Bool
  min_keyword_length : Nat

/-- `OptionInferrer` (its loaded configuration). -/
structure OptionInferrer where
  patterns : List OptionPattern
  settings : PatternSettings
  default_type : String

/-- `OptionInferrer::extract_option_name`: strip dashes from the long flag,
else from the short flag, else the empty string. -/
def extract_option_name (option : CliOption) : String :=
  match option.long with
  | some long => stripDashes long
  | none =>
    match option.short with
    | some short => stripDashes short
    | none => ""

/-- `OptionInferrer::matches_pattern`. -/
def matches_pattern (settings : PatternSettings) (optionName : String)
    (pattern : OptionPattern) : Bool :=
  let name := if settings.case_sensitive then optionName else lowerStr optionName
  pattern.keywords.any fun keyword =>
    let keywordNormalized :=
      if settings.case_sensitive then keyword else lowerStr keyword
    if settings.partialMatch then
      decide (settings.min_keyword_length ≤ keywordNormalized.data.length)
        && strContains name keywordNormalized
    else
      name == keywordNormalized

/-- `OptionInferrer::pattern_type_to_option_type`. -/
def pattern_type_to_option_type (patternType : String) : OptionType :=
  match patternType with
  | "numeric" => .numeric none none
  | "path" => .path
  | "enum" => .enum []
  | "boolean" => .flag
  | _ => .string

/-- The stable descending-priority sort
`sorted_patterns.sort_by(|a, b| b.priority.cmp(&a.priority))`. -/
def sortByPriorityDesc (patterns : List OptionPattern) : List OptionPattern :=
  patterns.mergeSort (fun a b => b.priority ≤ a.priority)

/-- `OptionInferrer::infer_type`. -/
def infer_type (inferrer : OptionInferrer) (option : CliOption) : OptionType :=
  match option.option_type with
  | .flag => .flag
  | _ =>
    let optionName := extract_option_name option
    let sorted := sortByPriorityDesc inferrer.patterns
    match sorted.find? (fun p => matches_pattern inferrer.settings optionName p) with
    | some p => pattern_type_to_option_type p.pattern_type
    | none => pattern_type_to_option_type inferrer.default_type

/-- `OptionInferrer::infer_types`. -/
def infer_types (inferrer : OptionInferrer) (options : List CliOption) :
    List CliOption :=
  options.map fun option => { option with option_type := infer_type inferrer option }

/-- `NumericConstraint` (alias-keyed numeric bounds). -/
structure NumericConstraint where
  aliases : List String
  min : Int
  max : Int

/-- `DefaultNumericConstraints`. -/
structure DefaultNumericConstraints where
  min : Int
  max : Int

/-- `NumericConstraintsConfig`; the `HashMap` values iteration of the source
appears as a list in that (unspecified) iteration order. -/
structure NumericConstraintsConfig where
  constraints : List NumericConstraint
  default_constraints : DefaultNumericConstraints

/-- The option-name derivation shared by the augmentation passes:
`long.or(short)` with dashes stripped and lowercased, defaulting to `""`. -/
def augmentName (option : CliOption) : String :=
  match option.long with
  | some long => lowerStr (stripDashes long)
  | none =>
    match option.short with
    | some short => lowerStr (stripDashes short)
    | none => ""

/-- `apply_numeric_constraints`: `none` for the configuration models the
load-failure early return, which leaves the options untouched. A `Numeric`
option gets the first alias-matching constraint's bounds, else the default
bounds — both bounds always assigned together. -/
def apply_numeric_constraints (config : Option NumericConstraintsConfig)
    (options : List CliOption) : List CliOption :=
  match config with
  | none => options
  | some cfg =>
    options.map fun option =>
      match option.option_type with
      | .numeric _ _ =>
        let optionName := augmentName option
        (match cfg.constraints.find?
            (fun c => c.aliases.any fun al => strContains optionName (lowerStr al)) with
         | some c =>
           { option with option_type := .numeric (some c.min) (some c.max) }
         | none =>
           let dmin := cfg.default_constraints.min
           let dmax := cfg.default_constraints.max
           { option with option_type := .numeric (some dmin) (some dmax) })
      | _ => option

/-! ## Recursive subcommand discovery (`src/analyzer/subcommand_detector.rs`) -/

/-- The accepted subcommand-section headers (`SUBCOMMAND_HEADERS`). -/
def SUBCOMMAND_HEADERS : List String :=
  ["Commands:", "Available Commands:", "Subcommands:",
   "Available subcommands:", "COMMANDS:", "SUBCOMMANDS:"]

/-- `MAX_RECURSION_DEPTH` (the default `max_depth`). -/
def MAX_RECURSION_DEPTH : Nat := 3

/-- The final `\s{2,}(.+)$` of `SUBCOMMAND_PATTERN`; on an all-whitespace
remainder the greedy `\s{2,}` gives one character back to `(.+)`. -/
def scFinal (s : List Char) : Option (List Char) :=
  let w := s.takeWhile rsSpace
  let r := s.drop w.length
  if w.length < 2 then none
  else if !r.isEmpty then some r
  else if 3 ≤ w.length then some (s.drop (s.length - 1))
  else none

/-- One `\s+\[[^\]]+\]` placeholder group of `SUBCOMMAND_PATTERN`; returns
the remainder after the `]`. -/
def consumeBracketGroup (s : List Char) : Option (List Char) :=
  let w := s.takeWhile rsSpace
  if w.isEmpty then none
  else
    match s.drop w.length with
    | '[' :: r =>
      let content := r.takeWhile (fun c => !(c == ']'))
      if content.isEmpty then none
      else
        match r.drop content.length with
        | ']' :: after => some after
        | _ => none
    | _ => none

/-- The `(?:\s+\[[^\]]+\])*\s{2,}(.+)$` tail of `SUBCOMMAND_PATTERN`, with
the greedy `*` backtracking to the group-less continuation. Fuel-structural:
every group consumes at least three characters, so with `fuel = s.length`
the zero-fuel branch coincides with the zero-further-groups continuation. -/
def scGroups : Nat → List Char → Option (List Char)
  | 0, s => scFinal s
  | fuel + 1, s =>
    match consumeBracketGroup s with
    | some s1 =>
      (match scGroups fuel s1 with
       | some d => some d
       | none => scFinal s)
    | none => scFinal s

/-- Full-line match of
`SUBCOMMAND_PATTERN = ^\s{2,}([a-z][a-z0-9-]+)(?:\s+\[[^\]]+\])*\s{2,}(.+)$`;
returns the captured name and the trimmed description, as
`SubcommandDetector::parse_subcommands` extracts them. -/
def matchSubcommandLine (line : List Char) : Option (String × String) :=
  let ws := line.takeWhile rsSpace
  if ws.length < 2 then none
  else
    match line.drop ws.length with
    | c :: r =>
      if isAsciiLower c then
        let tl := r.takeWhile isLongTail
        if tl.isEmpty then none
        else
          let rem := r.drop tl.length
          match scGroups rem.length rem with
          | some desc => some (String.mk (c :: tl), String.mk (rsTrim desc))
          | none => none
      else none
    | [] => none

/-- The section-tracking line loop of
`SubcommandDetector::parse_subcommands`. -/
def parseSubsGo : List (List Char) → Bool → List (String × String)
  | [], _ => []
  | line :: rest, inSection =>
    if !inSection then
      parseSubsGo rest (SUBCOMMAND_HEADERS.any fun hd => hd.data.isPrefixOf (rsTrim line))
    else if (rsTrim line).isEmpty then
      parseSubsGo rest false
    else
      match matchSubcommandLine line with
      | some nd => nd :: parseSubsGo rest true
      | none => parseSubsGo rest true

/-- `SubcommandDetector::parse_subcommands`. -/
def parse_subcommands (helpOutput : String) : List (String × String) :=
  parseSubsGo (rustLines helpOutput.data) false

/-- `SubcommandDetector::get_subcommand_help`: `<bin> <sub> --help`, then
`<bin> <sub> -h`, then `<bin> help <sub>`; the first non-empty (after
trimming) output wins, and every empty-or-failed probe falls through. -/
def get_subcommand_help (exec : ExecOracle) (subcommand : String) :
    Except CliTestError String :=
  let tryHelpSub : Except CliTestError String :=
    match exec ["help", subcommand] with
    | .ok output =>
      if !(rsTrim output.data).isEmpty then .ok output
      else .error .invalidHelpOutput
    | .error _ => .error .invalidHelpOutput
  let tryDashH : Except CliTestError String :=
    match exec [subcommand, "-h"] with
    | .ok output => if !(rsTrim output.data).isEmpty then .ok output else tryHelpSub
    | .error _ => tryHelpSub
  match exec [subcommand, "--help"] with
  | .ok output => if !(rsTrim output.data).isEmpty then .ok output else tryDashH
  | .error _ => tryDashH

/-- The fixed data of one `SubcommandDetector::detect` call: the display
string of the (already canonical) binary path, the probe oracle, the option
inferrer configuration, and `max_depth`. -/
structure DetectorEnv where
  binaryDisplay : String
  exec : ExecOracle
  inferrer : OptionInferrer
  maxDepth : Nat

/-- The per-candidate loop of `SubcommandDetector::detect_recursive`,
generic in the recursive call used for nested discovery. The `visited` hash
set is embedded as a list of keys threaded through the loop. -/
def detectLoopG (env : DetectorEnv)
    (recurse : String → List String → List Subcommand × List String) :
    List (String × String) → Nat → List String → List Subcommand × List String
  | [], _, visited => ([], visited)
  | (name, desc) :: rest, currentDepth, visited =>
    let visitKey := env.binaryDisplay ++ "-" ++ name
    if visitKey ∈ visited then detectLoopG env recurse rest currentDepth visited
    else
      let visited1 := visitKey :: visited
      match get_subcommand_help env.exec name with
      | .error _ => detectLoopG env recurse rest currentDepth visited1
      | .ok subcommandHelp =>
        let options := infer_types env.inferrer (parse_options subcommandHelp)
        let requiredArgs := parse_required_args subcommandHelp
        let nestedR := recurse subcommandHelp visited1
        let restR := detectLoopG env recurse rest currentDepth nestedR.2
        (Subcommand.mk name (some desc) options requiredArgs nestedR.1 currentDepth
           :: restR.1,
         restR.2)

/-- `SubcommandDetector::detect_recursive`. The source recursion is bounded
by the `current_depth >= max_depth` guard; here that bound appears as
structural fuel with the invariant `fuel = max_depth - current_depth`, under
which the zero-fuel branch is unreachable (the guard fires first), so the
function agrees with the source on every call issued by `detect`. -/
def detectRec (env : DetectorEnv) :
    Nat → String → Nat → List String → List Subcommand × List String
  | fuel, helpOutput, currentDepth, visited =>
    if env.maxDepth ≤ currentDepth then ([], visited)
    else
      let candidates := parse_subcommands helpOutput
      if candidates.isEmpty then ([], visited)
      else
        match fuel with
        | 0 => ([], visited)
        | fuel' + 1 =>
          detectLoopG env (fun h v => detectRec env fuel' h (currentDepth + 1) v)
            candidates currentDepth visited

/-- `SubcommandDetector::detect`: start at depth 0 with an empty visited
set. -/
def detect (env : DetectorEnv) (helpOutput : String) : List Subcommand :=
  (detectRec env env.maxDepth helpOutput 0 []).1

/-! ## `CliParser::analyze` (`src/analyzer/cli_parser.rs`) -/

/-- The ambient data of one `analyze` call on a binary path already accepted
by `validate_binary_path`: the probe oracle, the canonical path's display
string and file name, the detector's inferrer configuration, and the
wall-clock values (`chrono::Utc::now`, `CARGO_PKG_VERSION`, elapsed ms) that
fill the metadata. -/
structure AnalyzeEnv where
  exec : ExecOracle
  binaryDisplay : String
  binaryName : String
  inferrer : OptionInferrer
  analyzedAt : String
  analyzerVersion : String
  durationMs : Nat

/-- `CliParser::analyze`, from the point where validation has succeeded:
help acquisition, the empty-help check, version probing, option parsing,
recursive subcommand detection (with the default `max_depth`), and metadata
recomputation. -/
def analyze (env : AnalyzeEnv) : Except CliTestError CliAnalysis :=
  match execute_help env.exec with
  | .error e => .error e
  | .ok helpOutput =>
    if (rsTrim helpOutput.data).isEmpty then .error .invalidHelpOutput
    else
      let version := try_get_version env.exec
      let globalOptions := parse_options helpOutput
      let detEnv : DetectorEnv :=
        { binaryDisplay := env.binaryDisplay, exec := env.exec,
          inferrer := env.inferrer, maxDepth := MAX_RECURSION_DEPTH }
      let subcommands := detect detEnv helpOutput
      .ok {
        binary_path := env.binaryDisplay
        binary_name := env.binaryName
        version := version
        help_output := helpOutput
        subcommands := subcommands
        global_options := globalOptions
        metadata := {
          analyzed_at := env.analyzedAt
          analyzer_version := env.analyzerVersion
          total_subcommands := count_subcommands subcommands
          total_options := globalOptions.length + count_options subcommands
          analysis_duration_ms := env.durationMs } }

/-! ## No-args behavior classification (`src/analyzer/behavior_inferrer.rs`) -/

/-- `INTERACTIVE_TOOLS`. -/
def INTERACTIVE_TOOLS : List String :=
  ["psql", "mysql", "redis-cli", "mongo", "mongosh", "sqlite3",
   "python", "python3", "node", "irb", "php", "R", "julia",
   "gdb", "lldb", "ghci", "erl", "iex"]

/-- `BehaviorInferrer::is_interactive_tool`: a substring test against every
allowlist entry. -/
def is_interactive_tool (binaryName : String) : Bool :=
  INTERACTIVE_TOOLS.any fun name => strContains binaryName name

/-- The capture of `USAGE_LINE = (?i)^\s*usage:\s+(.+)$` on an
(already trimmed) line. -/
def usageCapture (t : List Char) : Option (List Char) :=
  let t1 := t.dropWhile rsSpace
  if ((t1.take 6).map Char.toLower) == "usage:".data then
    matchWsPlusRest (t1.drop 6)
  else none

/-- `BehaviorInferrer::extract_usage_pattern`: the first line whose trimmed
text matches `USAGE_LINE`; returns the capture. -/
def extract_usage_pattern (helpOutput : String) : Option String :=
  go (rustLines helpOutput.data)
where
  go : List (List Char) → Option String
    | [] => none
    | line :: rest =>
      match usageCapture (rsTrim line) with
      | some cap => some (String.mk cap)
      | none => go rest

/-- `BehaviorInferrer::requires_subcommand_from_usage`. The bracket
exclusions test the original (non-lowercased) pattern, as the source does. -/
def requires_subcommand_from_usage (pattern : String) : Bool :=
  let patternLower := lowerStr pattern
  if strContains patternLower "<subcommand>" || strContains patternLower "<command>" then
    true
  else if (strContains patternLower " command" || strContains patternLower " subcommand")
      && (!strContains pattern "[command]" && !strContains pattern "[subcommand]") then
    true
  else false

/-- `BehaviorInferrer::is_optional_only_from_usage`. -/
def is_optional_only_from_usage (pattern : String) : Bool :=
  let parts := splitWS pattern.data
  if parts.length ≤ 1 then true
  else
    let args := List.intercalate [' '] (parts.drop 1)
    match trimStart args with
    | '[' :: _ => true
    | _ => false

/-- The verdict of the usage-line strategy (strategy 2), `none` when neither
pattern check fires. -/
def usage_verdict (analysis : CliAnalysis) : Option NoArgsBehavior :=
  match extract_usage_pattern analysis.help_output with
  | some pattern =>
    if requires_subcommand_from_usage pattern then some .requireSubcommand
    else if is_optional_only_from_usage pattern then some .showHelp
    else none
  | none => none

/-- `BehaviorInferrer::infer_no_args_behavior`. The no-args probe
`execute_and_measure` is abstracted by its returned value: `.ok (some code)`
for an exit within the 1-second timeout (`status.code().unwrap_or(0)`
already applied), `.ok none` for a timeout, `.error _` for a spawn
failure. The interactive-allowlist check precedes any use of the probe. -/
def infer_no_args_behavior (probe : Except CliTestError (Option Int))
    (analysis : CliAnalysis) : NoArgsBehavior :=
  if is_interactive_tool analysis.binary_name then .interactive
  else
    match probe with
    | .ok (some exitCode) =>
      if exitCode == 0 then .showHelp
      else if exitCode == 1 || exitCode == 2 then .requireSubcommand
      else .showHelp
    | _ =>
      let fallback :=
        if !analysis.subcommands.isEmpty then NoArgsBehavior.requireSubcommand
        else NoArgsBehavior.showHelp
      match extract_usage_pattern analysis.help_output with
      | some pattern =>
        if requires_subcommand_from_usage pattern then .requireSubcommand
        else if is_optional_only_from_usage pattern then .showHelp
        else fallback
      | none => fallback

/-! ## The execution gate's wait loop (`src/utils/validator.rs`)

`execute_with_timeout_and_limits` after a successful spawn: the child's
observable behavior is a `ProcSpec` (when, in whole 50 ms poll intervals,
`try_wait` starts reporting an exit, and the captured streams); the timeout
is likewise measured in poll intervals. -/

/-- What the gate can observe of the spawned child, plus the `{:?}` rendering
of the timeout `Duration` used in the failure message. -/
structure ProcSpec where
  exitAtPoll : Option Nat
  stdout : String
  stderr : String
  timeoutRepr : String

/-- The fate of the child when the gate returns: was it killed, and was it
waited on (reaped). -/
structure ChildFate where
  killed : Bool
  reaped : Bool
deriving DecidableEq, Repr

/-- Does `try_wait` report an exit at this poll? -/
def childExited (spec : ProcSpec) (poll : Nat) : Bool :=
  match spec.exitAtPoll with
  | some t => t ≤ poll
  | none => false

/-- The poll loop of `execute_with_timeout_and_limits`: finished → collect
output (stdout preferred, stderr fallback) with the child reaped by
`try_wait`; not finished and timeout elapsed → kill, reap, report a timeout
`ExecutionFailed`; otherwise sleep one interval and poll again. `remaining`
is the number of whole poll intervals left before `start.elapsed() >=
timeout`. -/
def execLoopAux (spec : ProcSpec) :
    Nat → Nat → Except CliTestError String × ChildFate
  | remaining, poll =>
    if childExited spec poll then
      (.ok (if !spec.stdout.isEmpty then spec.stdout else spec.stderr),
       { killed := false, reaped := true })
    else
      match remaining with
      | 0 =>
        (.error (.executionFailed ("Timeout after " ++ spec.timeoutRepr)),
         { killed := true, reaped := true })
      | r + 1 => execLoopAux spec r (poll + 1)

/-- `execute_with_timeout_and_limits` from the successful spawn onward, with
the timeout expressed in whole poll intervals. -/
def execute_with_timeout_and_limits (spec : ProcSpec) (timeoutPolls : Nat) :
    Except CliTestError String × ChildFate :=
  execLoopAux spec timeoutPolls 0

/-! ## Invariant predicates used by the claims -/

/-- Depth discipline of a discovered forest: every node at a given level
carries exactly the level's depth, stays strictly below `m`, and its
children satisfy the same at `d + 1`. -/
def depthOkForest (m : Nat) : Nat → List Subcommand → Bool
  | _, [] => true
  | d, .mk _ _ _ _ subs depth :: rest =>
    (depth == d) && decide (depth < m)
      && depthOkForest m (d + 1) subs && depthOkForest m d rest

/-- All visitation keys `format!("{}-{}", binary, name)` of a forest,
including nested nodes. -/
def subcommandKeys (bin : String) : List Subcommand → List String
  | [] => []
  | .mk name _ _ _ subs _ :: rest =>
    (bin ++ "-" ++ name) :: (subcommandKeys bin subs ++ subcommandKeys bin rest)

/-- `min.is_some() == max.is_some()` for `Numeric`; vacuous otherwise. -/
def numericBoundsAligned : OptionType → Bool
  | .numeric mn mx => mn.isSome == mx.isSome
  | _ => true

/-- Both bounds absent for `Numeric`; vacuous otherwise. -/
def numericBoundsNone : OptionType → Bool
  | .numeric mn mx => mn.isNone && mx.isNone
  | _ => true

/-- Both bounds present for `Numeric`; vacuous otherwise. -/
def numericBoundsSet : OptionType → Bool
  | .numeric mn mx => mn.isSome && mx.isSome
  | _ => true

/-- At least one of short/long present. -/
def hasShortOrLong (option : CliOption) : Bool :=
  option.short.isSome || option.long.isSome

/-- The deduplication key of an emitted option. -/
def cliOptionKey (option : CliOption) : String :=
  optionKeyOf option.short option.long

/-! ## Lemmas about the execution gate's poll loop -/

/-- If the child never reports an exit up to one poll past the horizon, the
loop times out: the child is killed and reaped and a timeout failure is
returned. -/
theorem execLoopAux_timeout (spec : ProcSpec) :
    ∀ (remaining poll : Nat),
      (∀ t, spec.exitAtPoll = some t → poll + remaining < t) →
      execLoopAux spec remaining poll =
        (.error (.executionFailed ("Timeout after " ++ spec.timeoutRepr)),
         { killed := true, reaped := true }) := by
  intro remaining
  induction remaining with
  | zero =>
    intro poll hlate
    have hex : childExited spec poll = false := by
      unfold childExited
      cases hspec : spec.exitAtPoll with
      | none => rfl
      | some t =>
        have := hlate t hspec
        simp
        omega
    unfold execLoopAux
    simp [hex]
  | succ r ih =>
    intro poll hlate
    have hex : childExited spec poll = false := by
      unfold childExited
      cases hspec : spec.exitAtPoll with
      | none => rfl
      | some t =>
        have := hlate t hspec
        simp
        omega
    unfold execLoopAux
    simp only [hex, Bool.false_eq_true, if_false]
    exact ih (poll + 1) (fun t ht => by have := hlate t ht; omega)

/-- If the child reports an exit no later than `poll + remaining`, the loop
returns the captured output (stdout preferred, stderr fallback) and the
child is reaped without being killed. -/
theorem execLoopAux_exit (spec : ProcSpec) (t : Nat)
    (hexit : spec.exitAtPoll = some t) :
    ∀ (remaining poll : Nat), t ≤ poll + remaining →
      execLoopAux spec remaining poll =
        (.ok (if !spec.stdout.isEmpty then spec.stdout else spec.stderr),
         { killed := false, reaped := true }) := by
  intro remaining
  induction remaining with
  | zero =>
    intro poll hle
    have hex : childExited spec poll = true := by
      unfold childExited
      simp [hexit]
      omega
    unfold execLoopAux
    simp [hex]
  | succ r ih =>
    intro poll hle
    by_cases hp : t ≤ poll
    · have hex : childExited spec poll = true := by
        unfold childExited
        simp [hexit, hp]
      unfold execLoopAux
      simp [hex]
    · have hex : childExited spec poll = false := by
        unfold childExited
        simp [hexit]
        omega
      unfold execLoopAux
      simp only [hex, Bool.false_eq_true, if_false]
      exact ih (poll + 1) (by omega)

/-- C6: when the child has not exited by the time the timeout elapses (it
exits strictly after the timeout horizon, or never), the gate kills the
child, reaps it (never leaving a zombie), and returns an `ExecutionFailed`
timeout error rather than a successful output. -/
theorem timeout_kills_reaps_and_fails (spec : ProcSpec) (timeoutPolls : Nat)
    (hlate : ∀ t, spec.exitAtPoll = some t → timeoutPolls < t) :
    execute_with_timeout_and_limits spec timeoutPolls =
      (.error (.executionFailed ("Timeout after " ++ spec.timeoutRepr)),
       { killed := true, reaped := true }) :=
  execLoopAux_timeout spec timeoutPolls 0 (fun t ht => by
    have := hlate t ht
    omega)

/-- Witness for C6: a child that never exits, probed with a two-interval
timeout. -/
theorem timeout_kills_reaps_and_fails_witness :
    execute_with_timeout_and_limits
        { exitAtPoll := none, stdout := "", stderr := "", timeoutRepr := "1s" } 2 =
      (.error (.executionFailed "Timeout after 1s"),
       { killed := true, reaped := true }) :=
  timeout_kills_reaps_and_fails
    { exitAtPoll := none, stdout := "", stderr := "", timeoutRepr := "1s" } 2
    (fun t ht => by simp at ht)

/-- C9: when the child exits within the timeout, the gate returns `Ok` with
the captured stdout if stdout is non-empty, and otherwise `Ok` with the
captured stderr (the child reaped, never killed). -/
theorem exit_within_timeout_returns_output (spec : ProcSpec)
    (timeoutPolls t : Nat) (hexit : spec.exitAtPoll = some t)
    (hwithin : t ≤ timeoutPolls) :
    execute_with_timeout_and_limits spec timeoutPolls =
      (.ok (if !spec.stdout.isEmpty then spec.stdout else spec.stderr),
       { killed := false, reaped := true }) :=
  execLoopAux_exit spec t hexit timeoutPolls 0 (by omega)

/-- Witness for C9: one child with non-empty stdout, one with empty stdout
and help on stderr, both exiting within the timeout. -/
theorem exit_within_timeout_returns_output_witness :
    execute_with_timeout_and_limits
        { exitAtPoll := some 1, stdout := "out", stderr := "err", timeoutRepr := "300s" } 4 =
      (.ok "out", { killed := false, reaped := true })
  ∧ execute_with_timeout_and_limits
        { exitAtPoll := some 0, stdout := "", stderr := "Usage: demo", timeoutRepr := "300s" } 4 =
      (.ok "Usage: demo", { killed := false, reaped := true }) :=
  ⟨exit_within_timeout_returns_output
      { exitAtPoll := some 1, stdout := "out", stderr := "err", timeoutRepr := "300s" }
      4 1 rfl (by omega),
   exit_within_timeout_returns_output
      { exitAtPoll := some 0, stdout := "", stderr := "Usage: demo", timeoutRepr := "300s" }
      4 0 rfl (by omega)⟩

/-! ## Behavior-classifier theorems -/

/-- C10: the interactive allowlist check is a substring match on the binary
name: any name merely containing an allowlist entry anywhere classifies as
`Interactive`, for every possible outcome of the no-args probe (so the
verdict never depends on executing the binary). -/
theorem interactive_allowlist_substring (analysis : CliAnalysis)
    (probe : Except CliTestError (Option Int)) (tool : String)
    (hmem : tool ∈ INTERACTIVE_TOOLS)
    (hsub : strContains analysis.binary_name tool = true) :
    infer_no_args_behavior probe analysis = .interactive := by
  have hint : is_interactive_tool analysis.binary_name = true := by
    unfold is_interactive_tool
    rw [List.any_eq_true]
    exact ⟨tool, hmem, hsub⟩
  unfold infer_no_args_behavior
  simp [hint]

/-- Witness for C10: `"myRtool"` is not an allowlist entry but contains the
entry `"R"`, so it classifies as `Interactive` even though its probe exited
with code 0 (which would otherwise classify as `ShowHelp`). -/
theorem interactive_allowlist_substring_witness :
    infer_no_args_behavior (.ok (some 0))
      { binary_path := "/usr/bin/myRtool", binary_name := "myRtool",
        version := none, help_output := "Usage: myRtool [OPTIONS]",
        subcommands := [], global_options := [],
        metadata := { analyzed_at := "", analyzer_version := "",
                      total_subcommands := 0, total_options := 0,
                      analysis_duration_ms := 0 } } = .interactive :=
  interactive_allowlist_substring _ (.ok (some 0)) "R" (by decide) (by decide)

/-- C5: the first-match-wins strategy chain of `infer_no_args_behavior`:
allowlisted names classify as `Interactive` independently of the probe;
otherwise a probe exit maps code 0 to `ShowHelp`, codes 1 and 2 to
`RequireSubcommand`, and any other code to `ShowHelp`; a probe timeout (or
spawn failure) yields no verdict and falls through to the usage-line
strategy, then to the has-subcommands strategy, then to the `ShowHelp`
default. -/
theorem no_args_strategy_chain (analysis : CliAnalysis) (exitCode : Int)
    (probe : Except CliTestError (Option Int)) (e : CliTestError)
    (b : NoArgsBehavior) :
    (is_interactive_tool analysis.binary_name = true →
      infer_no_args_behavior probe analysis = .interactive)
  ∧ (is_interactive_tool analysis.binary_name = false →
      (infer_no_args_behavior (.ok (some 0)) analysis = .showHelp
      ∧ infer_no_args_behavior (.ok (some 1)) analysis = .requireSubcommand
      ∧ infer_no_args_behavior (.ok (some 2)) analysis = .requireSubcommand
      ∧ (exitCode ≠ 0 → exitCode ≠ 1 → exitCode ≠ 2 →
          infer_no_args_behavior (.ok (some exitCode)) analysis = .showHelp)
      ∧ infer_no_args_behavior (.ok none) analysis
          = infer_no_args_behavior (.error e) analysis
      ∧ (usage_verdict analysis = some b →
          infer_no_args_behavior (.ok none) analysis = b)
      ∧ (usage_verdict analysis = none → analysis.subcommands ≠ [] →
          infer_no_args_behavior (.ok none) analysis = .requireSubcommand)
      ∧ (usage_verdict analysis = none → analysis.subcommands = [] →
          infer_no_args_behavior (.ok none) analysis = .showHelp))) := by
  constructor
  · intro hint
    unfold infer_no_args_behavior
    simp [hint]
  · intro hnot
    refine ⟨?_, ?_, ?_, ?_, ?_, ?_, ?_, ?_⟩
    · unfold infer_no_args_behavior
      simp [hnot]
    · unfold infer_no_args_behavior
      simp [hnot]
    · unfold infer_no_args_behavior
      simp [hnot]
    · intro h0 h1 h2
      unfold infer_no_args_behavior
      simp [hnot, h0, h1, h2]
    · unfold infer_no_args_behavior
      simp [hnot]
    · intro hv
      unfold infer_no_args_behavior
      unfold usage_verdict at hv
      simp only [hnot, Bool.false_eq_true, if_false]
      cases hu : extract_usage_pattern analysis.help_output with
      | none => rw [hu] at hv; exact absurd hv (by simp)
      | some pattern =>
        rw [hu] at hv
        by_cases hreq : requires_subcommand_from_usage pattern = true
        · simp [hreq] at hv ⊢
          exact hv
        · simp only [Bool.not_eq_true] at hreq
          by_cases hopt : is_optional_only_from_usage pattern = true
          · simp [hreq, hopt] at hv ⊢
            exact hv
          · simp only [Bool.not_eq_true] at hopt
            simp [hreq, hopt] at hv
    · intro hv hsubs
      unfold infer_no_args_behavior
      unfold usage_verdict at hv
      simp only [hnot, Bool.false_eq_true, if_false]
      cases hu : extract_usage_pattern analysis.help_output with
      | none => simp [hu, hsubs]
      | some pattern =>
        rw [hu] at hv
        by_cases hreq : requires_subcommand_from_usage pattern = true
        · simp [hreq] at hv
        · simp only [Bool.not_eq_true] at hreq
          by_cases hopt : is_optional_only_from_usage pattern = true
          · simp [hreq, hopt] at hv
          · simp only [Bool.not_eq_true] at hopt
            simp [hu, hreq, hopt, hsubs]
    · intro hv hsubs
      unfold infer_no_args_behavior
      unfold usage_verdict at hv
      simp only [hnot, Bool.false_eq_true, if_false]
      cases hu : extract_usage_pattern analysis.help_output with
      | none => simp [hu, hsubs]
      | some pattern =>
        rw [hu] at hv
        by_cases hreq : requires_subcommand_from_usage pattern = true
        · simp [hreq] at hv
        · simp only [Bool.not_eq_true] at hreq
          by_cases hopt : is_optional_only_from_usage pattern = true
          · simp [hreq, hopt] at hv
          · simp only [Bool.not_eq_true] at hopt
            simp [hu, hreq, hopt, hsubs]

/-- A mock analysis record (as the behavior tests build them). -/
def mkAnalysis (name helpOutput : String) (subs : List Subcommand) : CliAnalysis :=
  { binary_path := "/usr/bin/" ++ name, binary_name := name,
    version := none, help_output := helpOutput,
    subcommands := subs, global_options := [],
    metadata := { analyzed_at := "", analyzer_version := "",
                  total_subcommands := 0, total_options := 0,
                  analysis_duration_ms := 0 } }

/-- Witness for C5: `psql` is interactive regardless of the probe; `git`
follows the exit-code map; on a timeout the usage line
`Usage: git <SUBCOMMAND>` forces `RequireSubcommand`; a tool with no usage
line and no subcommands defaults to `ShowHelp`. -/
theorem no_args_strategy_chain_witness :
    infer_no_args_behavior (.ok (some 0)) (mkAnalysis "psql" "Usage: psql [OPTIONS]" [])
      = .interactive
  ∧ infer_no_args_behavior (.ok (some 0))
      (mkAnalysis "git" "Usage: git <SUBCOMMAND>" []) = .showHelp
  ∧ infer_no_args_behavior (.ok (some 1))
      (mkAnalysis "git" "Usage: git <SUBCOMMAND>" []) = .requireSubcommand
  ∧ infer_no_args_behavior (.ok (some 5))
      (mkAnalysis "git" "Usage: git <SUBCOMMAND>" []) = .showHelp
  ∧ infer_no_args_behavior (.ok none)
      (mkAnalysis "git" "Usage: git <SUBCOMMAND>" []) = .requireSubcommand
  ∧ infer_no_args_behavior (.ok none)
      (mkAnalysis "mytool" "just some text" []) = .showHelp := by
  have hpsql := (no_args_strategy_chain (mkAnalysis "psql" "Usage: psql [OPTIONS]" [])
    5 (.ok (some 0)) (.executionFailed "") .showHelp).1
  have hgit := (no_args_strategy_chain (mkAnalysis "git" "Usage: git <SUBCOMMAND>" [])
    5 (.ok (some 0)) (.executionFailed "") .requireSubcommand).2
  have hplain := (no_args_strategy_chain (mkAnalysis "mytool" "just some text" [])
    5 (.ok (some 0)) (.executionFailed "") .showHelp).2
  have hgitn : is_interactive_tool (mkAnalysis "git" "Usage: git <SUBCOMMAND>" []).binary_name
      = false := by decide
  have hplainn : is_interactive_tool (mkAnalysis "mytool" "just some text" []).binary_name
      = false := by decide
  refine ⟨hpsql (by decide), (hgit hgitn).1, (hgit hgitn).2.1,
    (hgit hgitn).2.2.2.1 (by decide) (by decide) (by decide),
    (hgit hgitn).2.2.2.2.2.1 rfl, (hplain hplainn).2.2.2.2.2.2.2 rfl rfl⟩

/-! ## Numeric-bounds invariant (option inference and augmentation) -/

/-- Every type the rule table can produce has both numeric bounds absent. -/
theorem pattern_type_bounds_none (patternType : String) :
    numericBoundsNone (pattern_type_to_option_type patternType) = true := by
  unfold pattern_type_to_option_type
  split <;> rfl

/-- Absent-on-both-sides implies the bounds are aligned. -/
theorem aligned_of_boundsNone (ot : OptionType)
    (hn : numericBoundsNone ot = true) : numericBoundsAligned ot = true := by
  cases ot with
  | numeric mn mx =>
    simp only [numericBoundsNone, Bool.and_eq_true] at hn
    cases mn <;> cases mx <;> simp_all [numericBoundsAligned]
  | _ => rfl

/-- Present-on-both-sides implies the bounds are aligned. -/
theorem aligned_of_boundsSet (ot : OptionType)
    (hs : numericBoundsSet ot = true) : numericBoundsAligned ot = true := by
  cases ot with
  | numeric mn mx =>
    simp only [numericBoundsSet, Bool.and_eq_true] at hs
    cases mn <;> cases mx <;> simp_all [numericBoundsAligned]
  | _ => rfl

/-- `infer_type` only ever creates `Numeric` with both bounds `None`. -/
theorem infer_type_bounds_none (inferrer : OptionInferrer) (option : CliOption) :
    numericBoundsNone (infer_type inferrer option) = true := by
  unfold infer_type
  split
  · rfl
  · dsimp only
    split
    · exact pattern_type_bounds_none _
    · exact pattern_type_bounds_none _

/-- After `infer_types`, every option's numeric bounds are both `None`. -/
theorem infer_types_bounds_none (inferrer : OptionInferrer)
    (options : List CliOption) :
    (infer_types inferrer options).all
      (fun o => numericBoundsNone o.option_type) = true := by
  unfold infer_types
  rw [List.all_eq_true]
  intro o ho
  rw [List.mem_map] at ho
  obtain ⟨o0, _, rfl⟩ := ho
  exact infer_type_bounds_none inferrer o0

/-- With a loaded constraints table, `apply_numeric_constraints` leaves every
`Numeric` option with both bounds present (alias bounds or default bounds,
always set together). -/
theorem apply_numeric_sets_both (cfg : NumericConstraintsConfig)
    (options : List CliOption) :
    (apply_numeric_constraints (some cfg) options).all
      (fun o => numericBoundsSet o.option_type) = true := by
  unfold apply_numeric_constraints
  rw [List.all_eq_true]
  intro o ho
  rw [List.mem_map] at ho
  obtain ⟨o0, _, rfl⟩ := ho
  cases hot : o0.option_type with
  | numeric mn mx =>
    simp only [hot]
    split <;> simp [numericBoundsSet]
  | _ => simp [hot, numericBoundsSet]

/-- C7: `min.is_some() == max.is_some()` holds for every `Numeric` option at
every stage: type inference creates `Numeric` with both bounds `None`;
augmentation with a loaded table sets both bounds together (alias bounds for
matched options, configured defaults otherwise); and the composed pipeline
(including a failed table load, which leaves the options untouched) never
produces one bound without the other. -/
theorem numeric_bounds_always_paired (inferrer : OptionInferrer)
    (options : List CliOption) (cfgOpt : Option NumericConstraintsConfig)
    (cfg : NumericConstraintsConfig) :
    ((infer_types inferrer options).all
       (fun o => numericBoundsNone o.option_type) = true)
  ∧ ((apply_numeric_constraints (some cfg) options).all
       (fun o => numericBoundsSet o.option_type) = true)
  ∧ ((apply_numeric_constraints cfgOpt (infer_types inferrer options)).all
       (fun o => numericBoundsAligned o.option_type) = true) := by
  refine ⟨infer_types_bounds_none inferrer options,
    apply_numeric_sets_both cfg options, ?_⟩
  cases cfgOpt with
  | none =>
    show ((infer_types inferrer options).all
      (fun o => numericBoundsAligned o.option_type)) = true
    rw [List.all_eq_true]
    intro o ho
    refine aligned_of_boundsNone _ ?_
    have := infer_types_bounds_none inferrer options
    rw [List.all_eq_true] at this
    exact this o ho
  | some cfg2 =>
    rw [List.all_eq_true]
    intro o ho
    refine aligned_of_boundsSet _ ?_
    have := apply_numeric_sets_both cfg2 (infer_types inferrer options)
    rw [List.all_eq_true] at this
    exact this o ho

/-! ## Option-parsing invariants -/

/-- Every option the line loop emits carries a short or a long flag. -/
theorem parseOptionsGo_shortOrLong (lines : List (List Char)) :
    ∀ seen : List String,
      (parseOptionsGo lines seen).all hasShortOrLong = true := by
  induction lines with
  | nil => intro seen; rfl
  | cons line rest ih =>
    intro seen
    unfold parseOptionsGo
    dsimp only
    split
    · exact ih seen
    · split
      next hguard => exact ih seen
      next hguard =>
        split
        · exact ih seen
        · rw [List.all_cons, Bool.and_eq_true]
          refine ⟨?_, ih _⟩
          simp only [hasShortOrLong]
          cases hX : findShortOpt (rsTrim line) <;>
            cases hY : findLongOpt (rsTrim line) <;>
            simp_all

/-- The emitted options' deduplication keys are fresh with respect to the
`seen` set and pairwise distinct. -/
theorem parseOptionsGo_keys (lines : List (List Char)) :
    ∀ seen : List String,
      ((parseOptionsGo lines seen).map cliOptionKey).Nodup
      ∧ ∀ k ∈ (parseOptionsGo lines seen).map cliOptionKey, k ∉ seen := by
  induction lines with
  | nil => intro seen; exact ⟨List.nodup_nil, by simp [parseOptionsGo]⟩
  | cons line rest ih =>
    intro seen
    unfold parseOptionsGo
    dsimp only
    split
    · exact ih seen
    · split
      · exact ih seen
      · split
        next hkey => exact ih seen
        next hkey =>
          obtain ⟨ihn, ihs⟩ := ih
            (optionKeyOf ((findShortOpt (rsTrim line)).map fun c => String.mk ['-', c])
              ((findLongOpt (rsTrim line)).map fun l => "--" ++ String.mk l) :: seen)
          rw [List.map_cons]
          constructor
          · rw [List.nodup_cons]
            refine ⟨fun hmem => ?_, ihn⟩
            have := ihs _ hmem
            simp only [cliOptionKey] at hmem this
            exact this (List.mem_cons_self _ _)
          · intro k hk
            rcases List.mem_cons.mp hk with hk | hk
            · subst hk
              simpa [cliOptionKey] using hkey
            · have := ihs k hk
              intro hks
              exact this (List.mem_cons_of_mem _ hks)

/-- C8: every option `parse_options` emits has at least one of short/long
present, deduplication keys (the exact `(short, long)` pair rendered as in
the source) are pairwise distinct, and the duplicated
`"-h, --help   Print help"` input yields exactly one option with
`short = -h` and `long = --help`, first occurrence kept. -/
theorem parse_options_invariants (helpOutput : String) :
    ((parse_options helpOutput).all hasShortOrLong = true)
  ∧ ((parse_options helpOutput).map cliOptionKey).Nodup
  ∧ parse_options "-h, --help   Print help\n-h, --help   Print help"
      = [{ short := some "-h", long := some "--help",
           description := some "Print help", option_type := .flag,
           required := false, default_value := none }] := by
  refine ⟨?_, ?_, rfl⟩
  · unfold parse_options
    exact parseOptionsGo_shortOrLong _ []
  · unfold parse_options
    exact (parseOptionsGo_keys _ []).1

/-! ## `analyze` help-output theorems -/

/-- C1: for every binary accepted by validation (every probe environment),
`analyze` never returns a successful result whose help output trims to the
empty string, and when the acquired help output is empty after trimming the
failure is precisely `InvalidHelpOutput`. -/
theorem analyze_help_nonempty (env : AnalyzeEnv) :
    (∀ a, analyze env = .ok a → (rsTrim a.help_output.data).isEmpty = false)
  ∧ (∀ h, execute_help env.exec = .ok h → (rsTrim h.data).isEmpty = true →
      analyze env = .error .invalidHelpOutput) := by
  unfold analyze
  cases hexec : execute_help env.exec with
  | error e =>
    exact ⟨fun a ha => (by cases ha), fun h hh => (by cases hh)⟩
  | ok s =>
    by_cases hempty : (rsTrim s.data).isEmpty = true
    · simp only [hempty, if_true]
      refine ⟨fun a ha => (by cases ha), fun h hh _ => trivial⟩
    · rw [Bool.not_eq_true] at hempty
      simp only [hempty, Bool.false_eq_true, if_false]
      constructor
      · intro a ha
        cases ha
        exact hempty
      · intro h hh htrim
        cases hh
        rw [htrim] at hempty
        cases hempty

/-- A default inferrer configuration (the `OptionInferrer::default` fallback
values). -/
def defaultInferrer : OptionInferrer :=
  { patterns := [],
    settings := { case_sensitive := false, partialMatch := true,
                  min_keyword_length := 3 },
    default_type := "string" }

/-- An environment whose `--help` probe succeeds with a non-empty output and
whose other probes fail. -/
def envOkHelp : AnalyzeEnv :=
  { exec := fun args =>
      if args = ["--help"] then .ok "Usage: demo"
      else .error (.executionFailed "probe failed"),
    binaryDisplay := "/usr/bin/demo", binaryName := "demo",
    inferrer := defaultInferrer, analyzedAt := "2024-01-01T00:00:00Z",
    analyzerVersion := "0.1.0", durationMs := 5 }

/-- An environment whose `--help` probe succeeds with an empty output while
the remaining probes would succeed with non-empty help text. -/
def envEmptyHelp : AnalyzeEnv :=
  { exec := fun args =>
      if args = ["--help"] then .ok ""
      else if args = ["-h"] then .ok "Usage: demo [OPTIONS]"
      else if args = ["help"] then .ok "Usage: demo [OPTIONS]"
      else .error (.executionFailed "probe failed"),
    binaryDisplay := "/usr/bin/demo", binaryName := "demo",
    inferrer := defaultInferrer, analyzedAt := "2024-01-01T00:00:00Z",
    analyzerVersion := "0.1.0", durationMs := 5 }

/-- Witness for C1: a successful analysis carries non-empty trimmed help
text, and an empty first help output makes `analyze` fail with
`InvalidHelpOutput`. -/
theorem analyze_help_nonempty_witness :
    (rsTrim ("Usage: demo" : String).data).isEmpty = false
  ∧ analyze envEmptyHelp = .error .invalidHelpOutput :=
  ⟨(analyze_help_nonempty envOkHelp).1
      { binary_path := "/usr/bin/demo", binary_name := "demo",
        version := none, help_output := "Usage: demo",
        subcommands := [], global_options := [],
        metadata := { analyzed_at := "2024-01-01T00:00:00Z",
                      analyzer_version := "0.1.0",
                      total_subcommands := count_subcommands [],
                      total_options := 0 + count_options [],
                      analysis_duration_ms := 5 } } rfl,
   (analyze_help_nonempty envEmptyHelp).2 "" rfl rfl⟩

/-- Counterexample for C2: in `envEmptyHelp` the `--help` probe yields empty
output and the `-h` probe would yield non-empty help text, yet
`execute_help` keeps the empty `--help` result (it falls back only on probe
errors) and the analysis fails with `InvalidHelpOutput` without the later
probes' results ever being used — contradicting the claimed empty-output
fallback chain. -/
theorem execute_help_no_empty_fallback :
    envEmptyHelp.exec ["--help"] = .ok ""
  ∧ envEmptyHelp.exec ["-h"] = .ok "Usage: demo [OPTIONS]"
  ∧ execute_help envEmptyHelp.exec = .ok ""
  ∧ analyze envEmptyHelp = .error .invalidHelpOutput :=
  ⟨rfl, rfl, rfl, rfl⟩

/-- C2 (amended): top-level help acquisition tries `--help`, then `-h`, then
the `help` subcommand, moving to the next probe only when the previous probe
returns an execution error; the first successful probe's output is used even
when empty, and when that output trims to empty the analysis fails with
`InvalidHelpOutput` without attempting the remaining probes. -/
theorem execute_help_error_fallback (exec : ExecOracle) (env : AnalyzeEnv) :
    (∀ o, exec ["--help"] = .ok o → execute_help exec = .ok o)
  ∧ (∀ e o, exec ["--help"] = .error e → exec ["-h"] = .ok o →
      execute_help exec = .ok o)
  ∧ (∀ e e2, exec ["--help"] = .error e → exec ["-h"] = .error e2 →
      execute_help exec = exec ["help"])
  ∧ (∀ o, env.exec ["--help"] = .ok o → (rsTrim o.data).isEmpty = true →
      analyze env = .error .invalidHelpOutput) := by
  refine ⟨?_, ?_, ?_, ?_⟩
  · intro o ho
    unfold execute_help
    rw [ho]
  · intro e o he ho
    unfold execute_help
    rw [he, ho]
  · intro e e2 he he2
    unfold execute_help
    rw [he, he2]
  · intro o ho htrim
    have hexec : execute_help env.exec = .ok o := by
      unfold execute_help
      rw [ho]
    exact (analyze_help_nonempty env).2 o hexec htrim

/-- Witness for the amended C2: the first-probe result is used even when
empty; an erroring `--help` falls back to `-h`; two errors fall back to the
`help` subcommand; and an empty first result aborts with
`InvalidHelpOutput`. -/
theorem execute_help_error_fallback_witness :
    execute_help envOkHelp.exec = .ok "Usage: demo"
  ∧ execute_help envEmptyHelp.exec = .ok ""
  ∧ execute_help
      (fun args =>
        if args = ["-h"] then .ok "short help"
        else .error (.executionFailed "probe failed")) = .ok "short help"
  ∧ execute_help
      (fun args =>
        if args = ["help"] then .ok "sub help"
        else .error (.executionFailed "probe failed")) = .ok "sub help"
  ∧ analyze envEmptyHelp = .error .invalidHelpOutput := by
  refine ⟨?_, ?_, ?_, ?_, ?_⟩
  · exact (execute_help_error_fallback envOkHelp.exec envOkHelp).1
      "Usage: demo" rfl
  · exact (execute_help_error_fallback envEmptyHelp.exec envEmptyHelp).1 "" rfl
  · exact (execute_help_error_fallback
      (fun args =>
        if args = ["-h"] then .ok "short help"
        else .error (.executionFailed "probe failed")) envOkHelp).2.1
      (.executionFailed "probe failed") "short help" rfl rfl
  · refine ((execute_help_error_fallback
      (fun args =>
        if args = ["help"] then .ok "sub help"
        else .error (.executionFailed "probe failed")) envOkHelp).2.2.1
      (.executionFailed "probe failed") (.executionFailed "probe failed")
      rfl rfl).trans rfl
  · exact (execute_help_error_fallback envEmptyHelp.exec envEmptyHelp).2.2.2
      "" rfl rfl

/-! ## Detector invariants: depth discipline -/

/-- With no fuel, every branch of `detect_recursive` returns the empty
forest and the unchanged visited set. -/
theorem detectRec_zero (env : DetectorEnv) (help : String) (d : Nat)
    (visited : List String) : detectRec env 0 help d visited = ([], visited) := by
  unfold detectRec
  split
  · rfl
  · split
    · dsimp only
      split <;> rfl
    · rename_i k heq
      simp at heq

/-- The candidate loop emits, at level `d < max_depth`, only nodes carrying
depth `d` whose children (produced by `recurse`) satisfy the discipline at
`d + 1`. -/
theorem detectLoopG_depthOk (env : DetectorEnv)
    (recurse : String → List String → List Subcommand × List String)
    (d : Nat) (hd : d < env.maxDepth)
    (hrec : ∀ h v, depthOkForest env.maxDepth (d + 1) (recurse h v).1 = true) :
    ∀ (cands : List (String × String)) (visited : List String),
      depthOkForest env.maxDepth d
        (detectLoopG env recurse cands d visited).1 = true := by
  intro cands
  induction cands with
  | nil =>
    intro visited
    simp [detectLoopG, depthOkForest]
  | cons c rest ih =>
    intro visited
    obtain ⟨name, desc⟩ := c
    unfold detectLoopG
    dsimp only
    split
    · exact ih visited
    · cases hg : get_subcommand_help env.exec name with
      | error e => exact ih _
      | ok subHelp =>
        dsimp only
        rw [depthOkForest]
        simp only [Bool.and_eq_true, beq_self_eq_true, decide_eq_true_eq]
        exact ⟨⟨⟨trivial, hd⟩, hrec _ _⟩, ih _⟩

/-- Every forest `detect_recursive` returns from level `d` satisfies the
depth discipline at `d`. -/
theorem detectRec_depthOk (env : DetectorEnv) :
    ∀ (fuel : Nat) (helpOutput : String) (d : Nat) (visited : List String),
      depthOkForest env.maxDepth d
        (detectRec env fuel helpOutput d visited).1 = true := by
  intro fuel
  induction fuel with
  | zero =>
    intro help d visited
    rw [detectRec_zero]
    simp [depthOkForest]
  | succ f ih =>
    intro help d visited
    unfold detectRec
    split
    · simp [depthOkForest]
    next hle =>
      dsimp only
      split
      · simp [depthOkForest]
      · exact detectLoopG_depthOk env _ d (by omega)
          (fun h v => ih h (d + 1) v) _ visited

/-- C3: in every tree `SubcommandDetector::detect` returns, each node's
depth equals its parent's depth plus one (top-level nodes have depth 0), and
no node's depth reaches the configured `max_depth` (default 3): candidates
at depth ≥ `max_depth` are simply not explored, and `detect` still returns a
plain forest rather than an error. -/
theorem subcommand_depth_invariant (env : DetectorEnv) (helpOutput : String) :
    depthOkForest env.maxDepth 0 (detect env helpOutput) = true := by
  unfold detect
  exact detectRec_depthOk env env.maxDepth helpOutput 0 []

/-! ## Detector invariants: visitation keys -/

/-- The candidate loop only grows the visited set, emits pairwise-distinct
visitation keys, and every emitted key is recorded in the final visited set
and is fresh with respect to the initial one — provided the recursive call
used for nested discovery does the same. -/
theorem detectLoopG_keys (env : DetectorEnv)
    (recurse : String → List String → List Subcommand × List String)
    (hrecMono : ∀ h v x, x ∈ v → x ∈ (recurse h v).2)
    (hrecKeys : ∀ h v,
      (subcommandKeys env.binaryDisplay (recurse h v).1).Nodup
      ∧ ∀ k ∈ subcommandKeys env.binaryDisplay (recurse h v).1,
          k ∈ (recurse h v).2 ∧ k ∉ v) :
    ∀ (cands : List (String × String)) (d : Nat) (visited : List String),
      (∀ x ∈ visited, x ∈ (detectLoopG env recurse cands d visited).2)
      ∧ (subcommandKeys env.binaryDisplay
          (detectLoopG env recurse cands d visited).1).Nodup
      ∧ ∀ k ∈ subcommandKeys env.binaryDisplay
            (detectLoopG env recurse cands d visited).1,
          k ∈ (detectLoopG env recurse cands d visited).2 ∧ k ∉ visited := by
  intro cands
  induction cands with
  | nil =>
    intro d visited
    refine ⟨fun x hx => hx, ?_, ?_⟩
    · simp [detectLoopG, subcommandKeys]
    · simp [detectLoopG, subcommandKeys]
  | cons c rest ih =>
    intro d visited
    obtain ⟨name, desc⟩ := c
    unfold detectLoopG
    dsimp only
    split
    next hseen => exact ih d visited
    next hseen =>
      cases hg : get_subcommand_help env.exec name with
      | error e =>
        obtain ⟨m1, n1, f1⟩ := ih d ((env.binaryDisplay ++ "-" ++ name) :: visited)
        refine ⟨fun x hx => m1 x (List.mem_cons_of_mem _ hx), n1, fun k hk => ?_⟩
        obtain ⟨hk2, hkn⟩ := f1 k hk
        exact ⟨hk2, fun hkv => hkn (List.mem_cons_of_mem _ hkv)⟩
      | ok subHelp =>
        dsimp only
        obtain ⟨hNestedN, hNestedF⟩ :=
          hrecKeys subHelp ((env.binaryDisplay ++ "-" ++ name) :: visited)
        have hNestedMono :=
          hrecMono subHelp ((env.binaryDisplay ++ "-" ++ name) :: visited)
        obtain ⟨ihm, ihn, ihf⟩ :=
          ih d (recurse subHelp ((env.binaryDisplay ++ "-" ++ name) :: visited)).2
        rw [subcommandKeys]
        have hKeyRest : env.binaryDisplay ++ "-" ++ name
            ∈ (detectLoopG env recurse rest d
                (recurse subHelp ((env.binaryDisplay ++ "-" ++ name) :: visited)).2).2 :=
          ihm _ (hNestedMono _ (List.mem_cons_self _ _))
        refine ⟨?_, ?_, ?_⟩
        · intro x hx
          exact ihm x (hNestedMono x (List.mem_cons_of_mem _ hx))
        · rw [List.nodup_cons]
          constructor
          · intro hmem
            rcases List.mem_append.mp hmem with hmem | hmem
            · exact (hNestedF _ hmem).2 (List.mem_cons_self _ _)
            · exact (ihf _ hmem).2 (hNestedMono _ (List.mem_cons_self _ _))
          · refine List.Nodup.append hNestedN ihn ?_
            intro k hkN hkR
            exact (ihf k hkR).2 (hNestedF k hkN).1
        · intro k hk
          rcases List.mem_cons.mp hk with rfl | hk
          · exact ⟨hKeyRest, hseen⟩
          · rcases List.mem_append.mp hk with hk | hk
            · obtain ⟨h1, h2⟩ := hNestedF k hk
              exact ⟨ihm k h1, fun hv => h2 (List.mem_cons_of_mem _ hv)⟩
            · obtain ⟨h1, h2⟩ := ihf k hk
              exact ⟨h1, fun hv =>
                h2 (hNestedMono k (List.mem_cons_of_mem _ hv))⟩

/-- `detect_recursive` only grows the visited set, emits pairwise-distinct
visitation keys, and every emitted key lands in the final visited set and is
fresh with respect to the initial one. -/
theorem detectRec_keys (env : DetectorEnv) :
    ∀ (fuel : Nat) (helpOutput : String) (d : Nat) (visited : List String),
      (∀ x ∈ visited, x ∈ (detectRec env fuel helpOutput d visited).2)
      ∧ (subcommandKeys env.binaryDisplay
          (detectRec env fuel helpOutput d visited).1).Nodup
      ∧ ∀ k ∈ subcommandKeys env.binaryDisplay
            (detectRec env fuel helpOutput d visited).1,
          k ∈ (detectRec env fuel helpOutput d visited).2 ∧ k ∉ visited := by
  intro fuel
  induction fuel with
  | zero =>
    intro help d visited
    rw [detectRec_zero]
    exact ⟨fun x hx => hx, by simp [subcommandKeys], by simp [subcommandKeys]⟩
  | succ f ih =>
    intro help d visited
    unfold detectRec
    split
    · exact ⟨fun x hx => hx, by simp [subcommandKeys], by simp [subcommandKeys]⟩
    next hle =>
      dsimp only
      split
      · exact ⟨fun x hx => hx, by simp [subcommandKeys], by simp [subcommandKeys]⟩
      · exact detectLoopG_keys env _
          (fun h v x hx => (ih h (d + 1) v).1 x hx)
          (fun h v => ⟨(ih h (d + 1) v).2.1, (ih h (d + 1) v).2.2⟩)
          _ d visited

/-- C4: for every help text — including self-referential help that names the
same subcommand at several places or levels, modelled by an arbitrary probe
oracle — no two nodes of the forest returned by one
`SubcommandDetector::detect` call share a `(binary_path, name)` visitation
key: already-visited candidates are skipped, discovery terminates (the
embedding is a total function), and each key is emitted at most once. -/
theorem subcommand_keys_unique (env : DetectorEnv) (helpOutput : String) :
    (subcommandKeys env.binaryDisplay (detect env helpOutput)).Nodup := by
  unfold detect
  exact (detectRec_keys env env.maxDepth helpOutput 0 []).2.1

end CliTesting
